import Mathlib

/-!
Verification of the pthread matrix-vector multiplication program
(`quinn.h`, `pth_matrix_vector.c`, `matrix_vector.c`).

The block-distribution macros of `quinn.h` are embedded over `Int`,
modelling C `int` arithmetic.  Every division performed by the program
under the claims' hypotheses (`0 ≤ id < p`, `1 ≤ p`, `0 ≤ n`) has a
nonnegative dividend and a positive divisor, where C's truncating
division coincides with Lean's `Int` division `/`.
-/

namespace PthMatVec

/-- Embedding of `BLOCK_LOW(id,p,n) ((id)*(n)/(p))` from `quinn.h`. -/
def BLOCK_LOW (id p n : Int) : Int := id * n / p

/-- Embedding of `BLOCK_HIGH(id,p,n) (BLOCK_LOW((id)+1,p,n)-1)` from `quinn.h`. -/
def BLOCK_HIGH (id p n : Int) : Int := BLOCK_LOW (id + 1) p n - 1

/-- Embedding of `BLOCK_SIZE(id,p,n) (BLOCK_HIGH(id,p,n)-BLOCK_LOW(id,p,n)+1)`. -/
def BLOCK_SIZE (id p n : Int) : Int := BLOCK_HIGH id p n - BLOCK_LOW id p n + 1

/-- Embedding of `BLOCK_OWNER(j,p,n) (((p)*((j)+1)-1)/(n))` from `quinn.h`. -/
def BLOCK_OWNER (j p n : Int) : Int := (p * (j + 1) - 1) / n

/-- Monotonicity of the block lower bound in the worker id. -/
lemma block_low_mono {n p : Int} (hn : 0 ≤ n) (hp : 0 < p) {a b : Int} (hab : a ≤ b) :
    BLOCK_LOW a p n ≤ BLOCK_LOW b p n :=
  Int.ediv_le_ediv hp (mul_le_mul_of_nonneg_right hab hn)

/-- Worker 0 starts at row 0. -/
lemma block_low_zero (p n : Int) : BLOCK_LOW 0 p n = 0 := by
  simp [BLOCK_LOW]

/-- One past the last worker starts at row `n`. -/
lemma block_low_last {p : Int} (hp : 0 < p) (n : Int) : BLOCK_LOW p p n = n := by
  simpa [BLOCK_LOW] using Int.mul_ediv_cancel_left n hp.ne'

/-- Basic bounds of Euclidean division used throughout. -/
lemma ediv_bounds (q n : Int) (hn : 0 < n) : n * (q / n) ≤ q ∧ q < n * (q / n) + n := by
  have h1 := Int.ediv_add_emod q n
  have h2 := Int.emod_nonneg q hn.ne'
  have h3 := Int.emod_lt_of_pos q hn
  constructor <;> linarith

/-- Core coverage fact: for a row `j ∈ [0,n)`, the worker `BLOCK_OWNER j p n`
is a valid worker id and its block contains `j`. -/
lemma owner_covers {n p j : Int} (hn : 1 ≤ n) (hp : 1 ≤ p) (h0 : 0 ≤ j) (hj : j < n) :
    0 ≤ BLOCK_OWNER j p n ∧ BLOCK_OWNER j p n < p ∧
      BLOCK_LOW (BLOCK_OWNER j p n) p n ≤ j ∧ j ≤ BLOCK_HIGH (BLOCK_OWNER j p n) p n := by
  have hn0 : (0:Int) < n := hn
  have hp0 : (0:Int) < p := hp
  have hq0 : (0:Int) ≤ p * (j + 1) - 1 := by nlinarith
  obtain ⟨hwn, hqn⟩ := ediv_bounds (p * (j + 1) - 1) n hn0
  refine ⟨Int.ediv_nonneg hq0 hn0.le, ?_, ?_, ?_⟩
  · exact (Int.ediv_lt_iff_lt_mul hn0).2 (by nlinarith)
  · have hlt : BLOCK_OWNER j p n * n < (j + 1) * p := by
      simp only [BLOCK_OWNER]; nlinarith
    have h2 := (Int.ediv_lt_iff_lt_mul hp0).2 hlt
    simp only [BLOCK_LOW]
    linarith
  · have hle : (j + 1) * p ≤ (BLOCK_OWNER j p n + 1) * n := by
      simp only [BLOCK_OWNER]; nlinarith
    have h2 := (Int.le_ediv_iff_mul_le hp0).2 hle
    simp only [BLOCK_HIGH, BLOCK_LOW]
    linarith

/-- Two blocks containing the same row have the same worker id. -/
lemma block_unique {n p : Int} (hn : 0 ≤ n) (hp : 1 ≤ p) {r a b : Int}
    (ha : BLOCK_LOW a p n ≤ r ∧ r ≤ BLOCK_HIGH a p n)
    (hb : BLOCK_LOW b p n ≤ r ∧ r ≤ BLOCK_HIGH b p n) : a = b := by
  have hp0 : (0:Int) < p := hp
  rcases lt_trichotomy a b with h | h | h
  · exfalso
    have h1 : BLOCK_LOW (a + 1) p n ≤ BLOCK_LOW b p n :=
      block_low_mono hn hp0 (by linarith)
    have h2 : r ≤ BLOCK_LOW (a + 1) p n - 1 := ha.2
    linarith [hb.1]
  · exact h
  · exfalso
    have h1 : BLOCK_LOW (b + 1) p n ≤ BLOCK_LOW a p n :=
      block_low_mono hn hp0 (by linarith)
    have h2 : r ≤ BLOCK_LOW (b + 1) p n - 1 := hb.2
    linarith [ha.1]

/-- Claim C1: for every `n ≥ 0` and `p ≥ 1`, the inclusive ranges
`[BLOCK_LOW(id,p,n), BLOCK_HIGH(id,p,n)]` for `id ∈ [0,p)` are contiguous
(`BLOCK_LOW(id+1) = BLOCK_HIGH(id)+1`), stay inside `[0,n)`, and every row
`r ∈ [0,n)` lies in exactly one worker's range, so the ranges are pairwise
disjoint and their union is exactly `[0,n)`. -/
theorem quinn_partition (n p : Int) (hn : 0 ≤ n) (hp : 1 ≤ p) :
    (∀ id, BLOCK_LOW (id + 1) p n = BLOCK_HIGH id p n + 1) ∧
    (∀ id, 0 ≤ id → id < p → 0 ≤ BLOCK_LOW id p n ∧ BLOCK_HIGH id p n < n) ∧
    (∀ r, 0 ≤ r → r < n →
      ∃! id, (0 ≤ id ∧ id < p) ∧ BLOCK_LOW id p n ≤ r ∧ r ≤ BLOCK_HIGH id p n) := by
  have hp0 : (0:Int) < p := hp
  refine ⟨fun id => by simp [BLOCK_HIGH], fun id h0 hid => ?_, fun r h0 hr => ?_⟩
  · constructor
    · have h := block_low_mono hn hp0 h0
      simpa [block_low_zero] using h
    · have h1 : BLOCK_LOW (id + 1) p n ≤ BLOCK_LOW p p n :=
        block_low_mono hn hp0 (by linarith)
      have h2 : BLOCK_LOW p p n = n := block_low_last hp0 n
      simp only [BLOCK_HIGH]
      linarith
  · obtain ⟨hw0, hwp, hwl, hwh⟩ := owner_covers (by linarith) hp h0 hr
    refine ⟨BLOCK_OWNER r p n, ⟨⟨hw0, hwp⟩, hwl, hwh⟩, ?_⟩
    intro y hy
    exact block_unique hn hp hy.2 ⟨hwl, hwh⟩

/-- Claim C5: for every `n ≥ 0`, `p ≥ 1` and worker `id ∈ [0,p)`, the block
size `BLOCK_HIGH - BLOCK_LOW + 1` equals `floor(n/p)` or `ceil(n/p)`
(over the nonnegative inputs, `ceil(n/p) = (n+p-1)/p`). -/
theorem quinn_balance (n p id : Int) (hn : 0 ≤ n) (hp : 1 ≤ p)
    (h0 : 0 ≤ id) (hid : id < p) :
    BLOCK_SIZE id p n = n / p ∨ BLOCK_SIZE id p n = (n + p - 1) / p := by
  have hp0 : (0:Int) < p := hp
  have hpne : p ≠ 0 := hp0.ne'
  have key : ∀ b : Int, (b + n) / p = b / p + (b % p + n) / p := by
    intro b
    have h1 := Int.ediv_add_emod b p
    have h2 : b + n = b % p + n + p * (b / p) := by linarith
    rw [h2, Int.add_mul_ediv_left _ _ hpne]
    exact add_comm _ _
  have hsize : BLOCK_SIZE id p n = (id * n % p + n) / p := by
    simp only [BLOCK_SIZE, BLOCK_HIGH, BLOCK_LOW, add_mul, one_mul]
    have h := key (id * n)
    linarith
  have hmod1 : 0 ≤ id * n % p := Int.emod_nonneg _ hpne
  have hmod2 : id * n % p < p := Int.emod_lt_of_pos _ hp0
  have hb1 : n / p ≤ (id * n % p + n) / p := Int.ediv_le_ediv hp0 (by linarith)
  have hb2 : (id * n % p + n) / p ≤ (n + p - 1) / p := Int.ediv_le_ediv hp0 (by linarith)
  have hb3 : (n + p - 1) / p ≤ n / p + 1 := by
    have h4 : n + p - 1 = n - 1 + p * 1 := by ring
    have h5 : (n - 1) / p ≤ n / p := Int.ediv_le_ediv hp0 (by linarith)
    rw [h4, Int.add_mul_ediv_left _ _ hpne]
    linarith
  rw [hsize]
  rcases eq_or_lt_of_le hb1 with h | h
  · exact Or.inl h.symm
  · have h6 := Int.lt_iff_add_one_le.mp h
    exact Or.inr (le_antisymm hb2 (by linarith))

/-- Claim C6: for every `n ≥ 1`, `p ≥ 1` and row `j ∈ [0,n)`, the worker
`w = BLOCK_OWNER(j,p,n)` lies in `[0,p)` and its block contains `j`:
`BLOCK_LOW(w,p,n) ≤ j ≤ BLOCK_HIGH(w,p,n)`. -/
theorem block_owner_inverse (n p j : Int) (hn : 1 ≤ n) (hp : 1 ≤ p)
    (h0 : 0 ≤ j) (hj : j < n) :
    (0 ≤ BLOCK_OWNER j p n ∧ BLOCK_OWNER j p n < p) ∧
      BLOCK_LOW (BLOCK_OWNER j p n) p n ≤ j ∧ j ≤ BLOCK_HIGH (BLOCK_OWNER j p n) p n := by
  obtain ⟨h1, h2, h3, h4⟩ := owner_covers hn hp h0 hj
  exact ⟨⟨h1, h2⟩, h3, h4⟩

/-- Witness for C1 at `n = 10`, `p = 3`. -/
theorem quinn_partition_witness :
    (0:Int) ≤ 10 ∧ (1:Int) ≤ 3 ∧
      ((∀ id, BLOCK_LOW (id + 1) 3 10 = BLOCK_HIGH id 3 10 + 1) ∧
       (∀ id, 0 ≤ id → id < 3 → 0 ≤ BLOCK_LOW id 3 10 ∧ BLOCK_HIGH id 3 10 < 10) ∧
       (∀ r, 0 ≤ r → r < 10 →
         ∃! id, (0 ≤ id ∧ id < 3) ∧ BLOCK_LOW id 3 10 ≤ r ∧ r ≤ BLOCK_HIGH id 3 10)) :=
  ⟨by decide, by decide, quinn_partition 10 3 (by decide) (by decide)⟩

/-- Witness for C5 at `n = 10`, `p = 3`, `id = 1`. -/
theorem quinn_balance_witness :
    (0:Int) ≤ 10 ∧ (1:Int) ≤ 3 ∧ (0:Int) ≤ 1 ∧ (1:Int) < 3 ∧
      (BLOCK_SIZE 1 3 10 = 10 / 3 ∨ BLOCK_SIZE 1 3 10 = (10 + 3 - 1) / 3) :=
  ⟨by decide, by decide, by decide, by decide,
    quinn_balance 10 3 1 (by decide) (by decide) (by decide) (by decide)⟩

/-- Witness for C6 at `n = 10`, `p = 3`, `j = 7`. -/
theorem block_owner_inverse_witness :
    (1:Int) ≤ 10 ∧ (1:Int) ≤ 3 ∧ (0:Int) ≤ 7 ∧ (7:Int) < 10 ∧
      ((0 ≤ BLOCK_OWNER 7 3 10 ∧ BLOCK_OWNER 7 3 10 < 3) ∧
        BLOCK_LOW (BLOCK_OWNER 7 3 10) 3 10 ≤ 7 ∧
        7 ≤ BLOCK_HIGH (BLOCK_OWNER 7 3 10) 3 10) :=
  ⟨by decide, by decide, by decide, by decide,
    block_owner_inverse 10 3 7 (by decide) (by decide) (by decide) (by decide)⟩

section Compute

variable {α : Type} [Zero α] [Add α] [Mul α]

/-- Shared inner loop of `Mat_vect_mult` (`matrix_vector.c`) and
`Pth_mat_vect` (`pth_matrix_vector.c`): `y[i] = 0.0; for (j = 0; j < n; j++)
y[i] += A[i*n+j] * x[j];` — a left-to-right accumulation starting at zero.
Matrix entries are modelled over an arbitrary carrier with `0`, `+`, `*`
and no algebraic laws: both programs perform literally this operation
sequence, so the results agree even for floating-point arithmetic. -/
def dotRow (A x : Nat → α) (n i : Nat) : α :=
  (List.range n).foldl (fun acc j => acc + A (i * n + j) * x j) 0

/-- Row indices visited by the worker loop
`for (i = local_first_row; i <= local_last_row; i++)`: the naturals from
`BLOCK_LOW(id,p,m)` through `BLOCK_HIGH(id,p,m)` (empty when the block is
empty).  `mem_worker_rows_iff` below proves this matches the `Int`-level
macro bounds. -/
def worker_rows (id p m : Nat) : List Nat :=
  List.range' (id * m / p) ((id + 1) * m / p - id * m / p)

/-- Membership in a worker's row list is exactly the macro-level bound
`BLOCK_LOW(id,p,m) ≤ i ≤ BLOCK_HIGH(id,p,m)` computed in C `int` arithmetic. -/
lemma mem_worker_rows_iff {p : Nat} (hp : 1 ≤ p) (id m i : Nat) :
    i ∈ worker_rows id p m ↔
      BLOCK_LOW (id : Int) p m ≤ (i : Int) ∧ (i : Int) ≤ BLOCK_HIGH (id : Int) p m := by
  have hmono : id * m / p ≤ (id + 1) * m / p :=
    Nat.div_le_div_right (Nat.mul_le_mul_right m (Nat.le_succ id))
  have c1 : ((id * m / p : Nat) : Int) = (id : Int) * m / p := by
    rw [Int.ofNat_ediv]; push_cast; rfl
  have c2 : (((id + 1) * m / p : Nat) : Int) = ((id : Int) + 1) * m / p := by
    rw [Int.ofNat_ediv]; push_cast; rfl
  rw [worker_rows, List.mem_range'_1]
  have hadd : id * m / p + ((id + 1) * m / p - id * m / p) = (id + 1) * m / p := by
    omega
  rw [hadd]
  simp only [BLOCK_LOW, BLOCK_HIGH]
  constructor
  · rintro ⟨h1, h2⟩
    constructor
    · rw [← c1]; exact_mod_cast h1
    · have h3 : (i : Int) < (((id + 1) * m / p : Nat) : Int) := by exact_mod_cast h2
      rw [c2] at h3
      linarith
  · rintro ⟨h1, h2⟩
    constructor
    · have h3 : ((id * m / p : Nat) : Int) ≤ (i : Int) := by rw [c1]; exact h1
      exact_mod_cast h3
    · have h3 : (i : Int) < (((id + 1) * m / p : Nat) : Int) := by rw [c2]; linarith
      exact_mod_cast h3

/-- Embedding of the worker body `Pth_mat_vect` (`pth_matrix_vector.c`
lines 238-256): worker `id` overwrites `y[i]` with the accumulated row
product for every `i` in its block, leaving all other entries untouched. -/
def Pth_mat_vect (A x : Nat → α) (m n p id : Nat) (y : Nat → α) : Nat → α :=
  (worker_rows id p m).foldl (fun z i => Function.update z i (dotRow A x n i)) y

/-- Embedding of the serial reference `Mat_vect_mult` (`matrix_vector.c`
lines 169-178): rows 0 through `m-1` in order. -/
def Mat_vect_mult (A x y : Nat → α) (m n : Nat) : Nat → α :=
  (List.range m).foldl (fun z i => Function.update z i (dotRow A x n i)) y

/-- Sequential execution of the workers whose ids appear in `ids`, in that
order; with `ids = List.range p` this is the program's thread pool. -/
def run_workers (A x : Nat → α) (m n p : Nat) (ids : List Nat) (y : Nat → α) : Nat → α :=
  ids.foldl (fun z id => Pth_mat_vect A x m n p id z) y

/-- Output vector after all `p` workers of the program have run. -/
def pth_result (A x : Nat → α) (m n p : Nat) (y : Nat → α) : Nat → α :=
  run_workers A x m n p (List.range p) y

/-- Folding point updates: the final value at `j` is the written value when
`j` occurs in the index list, and the initial value otherwise. -/
lemma foldl_update_apply (g : Nat → α) (L : List Nat) (y : Nat → α) (j : Nat) :
    (L.foldl (fun z i => Function.update z i (g i)) y) j =
      if j ∈ L then g j else y j := by
  induction L generalizing y with
  | nil => simp
  | cons a L ih =>
    simp only [List.foldl_cons, ih, List.mem_cons]
    by_cases hj : j ∈ L
    · simp [hj]
    · by_cases ha : j = a
      · simp [hj, ha, Function.update_apply]
      · simp [hj, ha, Function.update_apply]

/-- Pointwise reading of one worker's effect on the output vector. -/
lemma Pth_mat_vect_apply (A x : Nat → α) (m n p id : Nat) (y : Nat → α) (j : Nat) :
    Pth_mat_vect A x m n p id y j =
      if j ∈ worker_rows id p m then dotRow A x n j else y j :=
  foldl_update_apply _ _ _ _

/-- Pointwise reading of the serial reference. -/
lemma Mat_vect_mult_apply (A x y : Nat → α) (m n j : Nat) :
    Mat_vect_mult A x y m n j = if j ∈ List.range m then dotRow A x n j else y j :=
  foldl_update_apply _ _ _ _

/-- Pointwise reading of a sequence of workers: entry `j` holds the row
product as soon as some executed worker's block contains `j`. -/
lemma run_workers_apply (A x : Nat → α) (m n p : Nat) (ids : List Nat)
    (y : Nat → α) (j : Nat) :
    run_workers A x m n p ids y j =
      if ∃ id ∈ ids, j ∈ worker_rows id p m then dotRow A x n j else y j := by
  induction ids generalizing y with
  | nil => simp [run_workers]
  | cons a L ih =>
    rw [show run_workers A x m n p (a :: L) y =
          run_workers A x m n p L (Pth_mat_vect A x m n p a y) from rfl, ih]
    by_cases h : ∃ id ∈ L, j ∈ worker_rows id p m
    · rw [if_pos h,
        if_pos ⟨h.choose, List.mem_cons_of_mem a h.choose_spec.1, h.choose_spec.2⟩]
    · rw [if_neg h, Pth_mat_vect_apply]
      by_cases ha : j ∈ worker_rows a p m
      · rw [if_pos ha, if_pos ⟨a, List.mem_cons_self a L, ha⟩]
      · have hnone : ¬ ∃ id ∈ a :: L, j ∈ worker_rows id p m := by
          rintro ⟨id, hid, hj⟩
          rcases List.mem_cons.mp hid with rfl | hmem
          · exact ha hj
          · exact h ⟨id, hmem, hj⟩
        rw [if_neg ha, if_neg hnone]

/-- Every row below `m` is covered by some worker id below `p`. -/
lemma exists_worker_covering {p m i : Nat} (hp : 1 ≤ p) (hi : i < m) :
    ∃ id, id < p ∧ i ∈ worker_rows id p m := by
  have hm1 : (1 : Int) ≤ (m : Int) := by exact_mod_cast Nat.one_le_iff_ne_zero.mpr (by omega)
  have hp1 : (1 : Int) ≤ (p : Int) := by exact_mod_cast hp
  have hi0 : (0 : Int) ≤ (i : Int) := Int.natCast_nonneg i
  have him : (i : Int) < (m : Int) := by exact_mod_cast hi
  obtain ⟨h1, h2, h3, h4⟩ := owner_covers hm1 hp1 hi0 him
  have hcast := Int.toNat_of_nonneg h1
  refine ⟨(BLOCK_OWNER (i : Int) p m).toNat, ?_, ?_⟩
  · have h5 : (((BLOCK_OWNER (i : Int) p m).toNat : Nat) : Int) < (p : Int) := by
      rw [hcast]; exact h2
    exact_mod_cast h5
  · rw [mem_worker_rows_iff hp, hcast]
    exact ⟨h3, h4⟩

/-- Distinct workers write disjoint row sets. -/
lemma worker_rows_disjoint {p m : Nat} (hp : 1 ≤ p) {a b i : Nat} (hab : a ≠ b)
    (ha : i ∈ worker_rows a p m) (hb : i ∈ worker_rows b p m) : False := by
  have h1 := (mem_worker_rows_iff hp a m i).1 ha
  have h2 := (mem_worker_rows_iff hp b m i).1 hb
  have h3 := block_unique (Int.natCast_nonneg m) (by exact_mod_cast hp) h1 h2
  exact hab (by exact_mod_cast h3)

end Compute

/-- Claim C2: for every matrix `A` of dimension `m×n` (`m,n ≥ 1`), vector
`x`, initial output buffer `y0` and worker count `p ≥ 1`, running
`Pth_mat_vect` for all worker ids `0..p-1` produces at every row `i < m` the
same value as the serial reference `Mat_vect_mult`: the left-to-right
accumulation `Σ_j A[i*n+j]*x[j]` — identical for every choice of `p`
(the right-hand side does not mention `p`). -/
theorem pth_equals_serial {α : Type} [Zero α] [Add α] [Mul α]
    (A x y0 : Nat → α) (m n p : Nat) (hm : 1 ≤ m) (hn : 1 ≤ n) (hp : 1 ≤ p)
    (i : Nat) (hi : i < m) :
    pth_result A x m n p y0 i = Mat_vect_mult A x y0 m n i := by
  rw [pth_result, run_workers_apply, Mat_vect_mult_apply]
  obtain ⟨id, hid, hmem⟩ := exists_worker_covering hp hi
  rw [if_pos ⟨id, List.mem_range.mpr hid, hmem⟩, if_pos (List.mem_range.mpr hi)]

/-- Claim C8: under the validated preconditions `m,n,p ≥ 1` and `id < p`,
every index used inside the worker compute loop is in bounds: each row `i`
of the block satisfies `i < m`, hence `y[i]` and `A[i*n+j]` (for `j < n`,
with `i*n+j < m*n`) and `x[j]` stay inside the allocated buffers; and a
worker's block can be empty only when `p > m`. -/
theorem worker_accesses_in_bounds (m n p id : Nat) (hm : 1 ≤ m) (hn : 1 ≤ n)
    (hp : 1 ≤ p) (hid : id < p) :
    (∀ i ∈ worker_rows id p m, i < m ∧ ∀ j, j < n → i * n + j < m * n) ∧
      (worker_rows id p m = [] → m < p) := by
  have hp0 : 0 < p := hp
  constructor
  · intro i hi
    rw [worker_rows, List.mem_range'_1] at hi
    have hmono : id * m / p ≤ (id + 1) * m / p :=
      Nat.div_le_div_right (Nat.mul_le_mul_right m (Nat.le_succ id))
    have hi2 : i < (id + 1) * m / p := by omega
    have him : i < m := by
      have hle : (id + 1) * m / p ≤ p * m / p :=
        Nat.div_le_div_right (Nat.mul_le_mul_right m (by omega))
      have hcancel : p * m / p = m := Nat.mul_div_cancel_left m hp0
      omega
    refine ⟨him, fun j hj => ?_⟩
    have h1 : (i + 1) * n ≤ m * n := Nat.mul_le_mul_right n (by omega)
    calc i * n + j < i * n + n := by omega
      _ = (i + 1) * n := by ring
      _ ≤ m * n := h1
  · intro hempty
    by_contra hcon
    push_neg at hcon
    have hone : 1 ≤ m / p := (Nat.one_le_div_iff hp0).mpr hcon
    rw [worker_rows, List.range'_eq_nil] at hempty
    have hsum : id * m / p + m / p ≤ (id * m + m) / p := by
      rw [Nat.le_div_iff_mul_le hp0]
      have h1 : id * m / p * p ≤ id * m := Nat.div_mul_le_self _ _
      have h2 : m / p * p ≤ m := Nat.div_mul_le_self _ _
      calc (id * m / p + m / p) * p = id * m / p * p + m / p * p := add_mul _ _ _
        _ ≤ id * m + m := Nat.add_le_add h1 h2
    have hrw : (id + 1) * m = id * m + m := by ring
    rw [hrw] at hempty
    omega

/-- Claim C9: the write sets of distinct workers are pairwise disjoint, every
write of a worker lands inside its assigned macro range `[BLOCK_LOW,
BLOCK_HIGH]`, and — since `A` and `x` are only read (they are immutable in
the embedding) — the final output vector is the same for every execution
order of the `p` workers, so the result is independent of thread
scheduling and interleaving. -/
theorem workers_race_free {α : Type} [Zero α] [Add α] [Mul α]
    (A x y0 : Nat → α) (m n p : Nat) (hm : 1 ≤ m) (hn : 1 ≤ n) (hp : 1 ≤ p) :
    (∀ a b, a < p → b < p → a ≠ b →
        ∀ i, i ∈ worker_rows a p m → i ∉ worker_rows b p m) ∧
    (∀ id i, i ∈ worker_rows id p m →
        BLOCK_LOW (id : Int) p m ≤ (i : Int) ∧ (i : Int) ≤ BLOCK_HIGH (id : Int) p m) ∧
    (∀ ids : List Nat, ids.Perm (List.range p) →
        ∀ i, run_workers A x m n p ids y0 i = pth_result A x m n p y0 i) := by
  refine ⟨?_, ?_, ?_⟩
  · intro a b ha hb hab i hia hib
    exact worker_rows_disjoint hp hab hia hib
  · intro id i hmem
    exact (mem_worker_rows_iff hp id m i).1 hmem
  · intro ids hperm i
    rw [run_workers_apply, pth_result, run_workers_apply]
    have hiff : (∃ id ∈ ids, i ∈ worker_rows id p m) ↔
        (∃ id ∈ List.range p, i ∈ worker_rows id p m) := by
      constructor <;> rintro ⟨id, hid, hmem⟩
      · exact ⟨id, hperm.mem_iff.mp hid, hmem⟩
      · exact ⟨id, hperm.mem_iff.mpr hid, hmem⟩
    exact if_congr hiff rfl rfl

/-- Example 2×3 matrix `[[1,2,3],[4,5,6]]` in row-major order (spec §8). -/
def Aex : Nat → Int := fun k => [1, 2, 3, 4, 5, 6].getD k 0

/-- Example input vector `[1,1,1]` (spec §8). -/
def xex : Nat → Int := fun k => [1, 1, 1].getD k 0

/-- Arbitrary initial contents of the freshly allocated output buffer. -/
def y0ex : Nat → Int := fun _ => 7

/-- Witness for C2 at `m = 2`, `n = 3`, `p = 5`, row 0 (excess workers get
empty blocks). -/
theorem pth_equals_serial_witness :
    1 ≤ 2 ∧ 1 ≤ 3 ∧ 1 ≤ 5 ∧ 0 < 2 ∧
      pth_result Aex xex 2 3 5 y0ex 0 = Mat_vect_mult Aex xex y0ex 2 3 0 :=
  ⟨by decide, by decide, by decide, by decide,
    pth_equals_serial Aex xex y0ex 2 3 5 (by decide) (by decide) (by decide) 0 (by decide)⟩

/-- Witness for C8 at `m = 2`, `n = 3`, `p = 5`, `id = 4` (empty block). -/
theorem worker_accesses_in_bounds_witness :
    1 ≤ 2 ∧ 1 ≤ 3 ∧ 1 ≤ 5 ∧ 4 < 5 ∧
      ((∀ i ∈ worker_rows 4 5 2, i < 2 ∧ ∀ j, j < 3 → i * 3 + j < 2 * 3) ∧
        (worker_rows 4 5 2 = [] → 2 < 5)) :=
  ⟨by decide, by decide, by decide, by decide,
    worker_accesses_in_bounds 2 3 5 4 (by decide) (by decide) (by decide) (by decide)⟩

/-- Witness for C9 at `m = 2`, `n = 3`, `p = 2`. -/
theorem workers_race_free_witness :
    1 ≤ 2 ∧ 1 ≤ 3 ∧ 1 ≤ 2 ∧
      ((∀ a b, a < 2 → b < 2 → a ≠ b →
          ∀ i, i ∈ worker_rows a 2 2 → i ∉ worker_rows b 2 2) ∧
       (∀ id i, i ∈ worker_rows id 2 2 →
          BLOCK_LOW (id : Int) 2 2 ≤ (i : Int) ∧ (i : Int) ≤ BLOCK_HIGH (id : Int) 2 2) ∧
       (∀ ids : List Nat, ids.Perm (List.range 2) →
          ∀ i, run_workers Aex xex 2 3 2 ids y0ex i = pth_result Aex xex 2 3 2 y0ex i)) :=
  ⟨by decide, by decide, by decide,
    workers_race_free Aex xex y0ex 2 3 2 (by decide) (by decide) (by decide)⟩

/-- Model of one binary matrix file together with the behaviour of the
C library calls made while reading it: whether `fopen` succeeds, the two
header words `fread` can deliver (`none` models a short read), whether the
`malloc` of the data buffer succeeds, and how many doubles the rest of the
file holds. -/
structure FileModel where
  openOk : Bool
  rowsWord : Option Int
  colsWord : Option Int
  mallocOk : Bool
  doublesAvail : Nat
deriving DecidableEq

/-- Embedding of `Read_matrix` (`pth_matrix_vector.c` lines 169-205; the
copy in `matrix_vector.c` lines 118-161 is behaviourally identical).
`none` models the return value `-1` with no out-parameters delivered;
`some (rows, cols, count)` models return value `0` with the dimensions and
the number of doubles delivered in the freshly allocated buffer.
`fread(A, sizeof(double), rows*cols, fp)` reports
`min doublesAvail (rows*cols)` items, which the code compares against
`rows*cols`. -/
def Read_matrix (f : FileModel) : Option (Int × Int × Nat) :=
  match f.openOk, f.rowsWord, f.colsWord with
  | false, _, _ => none
  | true, none, _ => none
  | true, _, none => none
  | true, some rows, some cols =>
    if rows ≤ 0 ∨ cols ≤ 0 then none
    else if ¬ f.mallocOk then none
    else if ((min f.doublesAvail (rows * cols).toNat : Nat) : Int) ≠ rows * cols then none
    else some (rows, cols, (rows * cols).toNat)

/-- Success postcondition of `Read_matrix`: delivered dimensions are
positive and the buffer holds exactly `rows*cols` doubles. -/
lemma Read_matrix_success {f : FileModel} {r c : Int} {d : Nat}
    (h : Read_matrix f = some (r, c, d)) :
    1 ≤ r ∧ 1 ≤ c ∧ (d : Int) = r * c := by
  obtain ⟨o, rws, cls, mal, avail⟩ := f
  cases o with
  | false => simp [Read_matrix] at h
  | true =>
    cases rws with
    | none => simp [Read_matrix] at h
    | some rows =>
      cases cls with
      | none => simp [Read_matrix] at h
      | some cols =>
        simp only [Read_matrix] at h
        split_ifs at h with h1 h2 h3 <;>
          first
            | exact Option.noConfusion h
            | (push_neg at h1
               simp only [Option.some.injEq, Prod.mk.injEq] at h
               obtain ⟨rfl, rfl, rfl⟩ := h
               exact ⟨by omega, by omega,
                 Int.toNat_of_nonneg (by nlinarith [h1.1, h1.2])⟩)

/-- Claim C10: `Read_matrix` fails (delivering nothing) whenever the file
cannot be opened, a header word cannot be read, a declared dimension is
non-positive, or the file holds fewer than `rows*cols` doubles; and on
success the delivered dimensions satisfy `rows ≥ 1` and `cols ≥ 1` and the
buffer holds exactly `rows*cols` doubles — establishing the engine's
`m,n ≥ 1` precondition. -/
theorem read_matrix_contract (f : FileModel) :
    (f.openOk = false → Read_matrix f = none) ∧
    (f.rowsWord = none → Read_matrix f = none) ∧
    (f.colsWord = none → Read_matrix f = none) ∧
    (∀ rows cols, f.rowsWord = some rows → f.colsWord = some cols →
      rows ≤ 0 ∨ cols ≤ 0 → Read_matrix f = none) ∧
    (∀ rows cols, f.rowsWord = some rows → f.colsWord = some cols →
      (f.doublesAvail : Int) < rows * cols → Read_matrix f = none) ∧
    (∀ rows cols count, Read_matrix f = some (rows, cols, count) →
      1 ≤ rows ∧ 1 ≤ cols ∧ (count : Int) = rows * cols) := by
  obtain ⟨o, rws, cls, mal, avail⟩ := f
  refine ⟨?_, ?_, ?_, ?_, ?_, fun rows cols count h => Read_matrix_success h⟩
  · intro h
    simp only at h
    subst h
    simp [Read_matrix]
  · intro h
    simp only at h
    subst h
    cases o <;> simp [Read_matrix]
  · intro h
    simp only at h
    subst h
    cases o <;> cases rws <;> simp [Read_matrix]
  · intro rows cols h1 h2 h3
    simp only at h1 h2
    subst h1
    subst h2
    cases o with
    | false => simp [Read_matrix]
    | true =>
      simp only [Read_matrix]
      rw [if_pos h3]
  · intro rows cols h1 h2 hlt
    simp only at h1 h2 hlt
    subst h1
    subst h2
    cases o with
    | false => simp [Read_matrix]
    | true =>
      simp only [Read_matrix]
      split_ifs with hA hB hC
      any_goals rfl
      exfalso
      have heq := not_ne_iff.mp hC
      have hmin : ((min avail (rows * cols).toNat : Nat) : Int) ≤ (avail : Int) := by
        exact_mod_cast min_le_left avail (rows * cols).toNat
      linarith

/-- Readable 2×3 file used to witness C10. -/
def fOkEx : FileModel := ⟨true, some 2, some 3, true, 6⟩

/-- Witness for C10 on a readable 2×3 file. -/
theorem read_matrix_contract_witness :
    Read_matrix fOkEx = some (2, 3, 6) ∧
      (1 ≤ (2:Int) ∧ 1 ≤ (3:Int) ∧ ((6:Nat) : Int) = 2 * 3) :=
  ⟨by decide, (read_matrix_contract fOkEx).2.2.2.2.2 2 3 6 (by decide)⟩

/-- Oracle for the single `Write_vector` call: whether `fopen(...,"wb")`
succeeds, whether each of the two header `fwrite`s succeeds, and how many
doubles the data `fwrite` reports written. -/
structure WriteEnv where
  openOk : Bool
  hdr1Ok : Bool
  hdr2Ok : Bool
  dataItems : Nat
deriving DecidableEq

/-- On-disk result file as left behind by `Write_vector`: the header words
already written and the number of doubles written.  `fopen(..., "wb")`
creates (or truncates to) an empty file, so a file exists on disk as soon
as the open succeeds, whatever happens afterwards. -/
structure OutFile where
  headerInts : List Int
  dataCount : Nat
deriving DecidableEq

/-- Complete, well-formed result file for an `m`-row output vector:
header `m, 1` followed by exactly `m` doubles. -/
def completeFile (m : Int) : OutFile := ⟨[m, 1], m.toNat⟩

/-- Embedding of `Write_vector` (`pth_matrix_vector.c` lines 211-231):
returns the C return value together with the file state left on disk
(`none` means no file was created). -/
def Write_vector (w : WriteEnv) (m : Int) : Int × Option OutFile :=
  if ¬ w.openOk then (-1, none)
  else if ¬ w.hdr1Ok then (-1, some ⟨[], 0⟩)
  else if ¬ w.hdr2Ok then (-1, some ⟨[m], 0⟩)
  else if (w.dataItems : Int) ≠ m then (-1, some ⟨[m, 1], w.dataItems⟩)
  else (0, some ⟨[m, 1], w.dataItems⟩)

/-- When `Write_vector` reports success the file on disk is the complete
result file. -/
lemma Write_vector_success {w : WriteEnv} {m : Int} (hm : 0 ≤ m)
    (h : (Write_vector w m).1 = 0) :
    (Write_vector w m).2 = some (completeFile m) := by
  unfold Write_vector at h ⊢
  split_ifs at h ⊢ with h1 h2 h3 h4 <;> simp_all [completeFile] <;> omega

/-- Diagnostics the program can print to the error stream, carrying the
numeric payloads that the corresponding `fprintf` format strings embed. -/
inductive Diag where
  | usage : Diag
  | badThreadCount : Diag
  | readAFail : Diag
  | readXFail : Diag
  | notColumn (nx : Int) : Diag
  | dimMismatch (m n mx : Int) : Diag
  | allocY : Diag
  | allocHandles : Diag
  | writeFail : Diag
deriving DecidableEq

/-- Oracle for one run of the parallel program's `main`: command-line shape,
the `atoi` value of the thread-count argument, the two input files, the two
allocations, the per-thread `pthread_create` outcomes (`true` means the
creation call fails), and the write oracle. -/
structure Env where
  argcIs5 : Bool
  threadCount : Int
  fileA : FileModel
  fileX : FileModel
  mallocY : Bool
  mallocHandles : Bool
  createFails : Nat → Bool
  wenv : WriteEnv

/-- Observable outcome of a run of `main`: process exit code, the output
file left on disk, whether the thread-creation loop was reached, the worker
ids whose threads actually started, and the diagnostics printed. -/
structure MainResult where
  exit : Int
  outFile : Option OutFile
  launched : Bool
  startedWorkers : List Nat
  diags : List Diag
deriving DecidableEq

/-- Embedding of `main` (`pth_matrix_vector.c` lines 42-152).  The loop at
lines 117-119 calls `pthread_create` and discards its return value, so the
`createFails` oracle influences only which workers actually start
(`startedWorkers`), never the control flow, the exit code, or whether the
result file is written. -/
def pthMain (env : Env) : MainResult :=
  if ¬ env.argcIs5 then ⟨1, none, false, [], [Diag.usage]⟩
  else if env.threadCount ≤ 0 then ⟨1, none, false, [], [Diag.badThreadCount]⟩
  else
    match Read_matrix env.fileA with
    | none => ⟨1, none, false, [], [Diag.readAFail]⟩
    | some (m, nA, _) =>
      match Read_matrix env.fileX with
      | none => ⟨1, none, false, [], [Diag.readXFail]⟩
      | some (mx, nx, _) =>
        if nx ≠ 1 then ⟨1, none, false, [], [Diag.notColumn nx]⟩
        else if nA ≠ mx then ⟨1, none, false, [], [Diag.dimMismatch m nA mx]⟩
        else if ¬ env.mallocY then ⟨1, none, false, [], [Diag.allocY]⟩
        else if ¬ env.mallocHandles then ⟨1, none, false, [], [Diag.allocHandles]⟩
        else if (Write_vector env.wenv m).1 ≠ 0 then
          ⟨1, (Write_vector env.wenv m).2, true,
            (List.range env.threadCount.toNat).filter (fun t => ! env.createFails t),
            [Diag.writeFail]⟩
        else
          ⟨0, (Write_vector env.wenv m).2, true,
            (List.range env.threadCount.toNat).filter (fun t => ! env.createFails t),
            []⟩

/-- Concrete run for C3: a valid 2×2 matrix and 2×1 vector, two threads,
`pthread_create` failing for thread 0, every other call succeeding. -/
def envCreateFail : Env :=
  { argcIs5 := true
    threadCount := 2
    fileA := ⟨true, some 2, some 2, true, 4⟩
    fileX := ⟨true, some 2, some 1, true, 2⟩
    mallocY := true
    mallocHandles := true
    createFails := fun t => t == 0
    wenv := ⟨true, true, true, 2⟩ }

/-- Claim C3 (code bug): `main` never inspects the return value of
`pthread_create` (`pth_matrix_vector.c` lines 117-119), so on a run where
thread 0 cannot be started the program still joins, writes the complete
output file — whose rows for worker 0 were never computed — and exits 0,
contradicting the spec's requirement that thread-creation failure be fatal. -/
theorem create_failure_ignored :
    (pthMain envCreateFail).exit = 0 ∧
      (pthMain envCreateFail).outFile = some (completeFile 2) ∧
      (pthMain envCreateFail).startedWorkers = [1] := by
  decide

/-- Concrete run for the C4 counterexample: everything succeeds up to the
write step, whose data `fwrite` writes 0 of the 2 doubles. -/
def envWriteFail : Env :=
  { argcIs5 := true
    threadCount := 2
    fileA := ⟨true, some 2, some 2, true, 4⟩
    fileX := ⟨true, some 2, some 1, true, 2⟩
    mallocY := true
    mallocHandles := true
    createFails := fun _ => false
    wenv := ⟨true, true, true, 0⟩ }

/-- Counterexample to C4 as stated: on this failing run (exit 1 after the
data `fwrite` fails) the output file exists on disk with a header but none
of the data — a partially written result file is left behind, because
`Write_vector` opens with `"wb"` before writing and never removes the file
on failure. -/
theorem write_failure_leaves_partial_file :
    (pthMain envWriteFail).exit ≠ 0 ∧
      (pthMain envWriteFail).outFile = some ⟨[2, 1], 0⟩ ∧
      (pthMain envWriteFail).outFile ≠ none ∧
      (pthMain envWriteFail).outFile ≠ some (completeFile 2) := by
  decide

/-- Claim C4 (amended): the output file is created only after the
computation phase has been reached — a run that fails before the write
step leaves no output file at all, and every failing run either leaves no
output file or failed in the write step itself (reported by a non-zero
exit and the write diagnostic, though a partially written file may then
remain); on success the output file is the complete result for the row
count read from file `A`. -/
theorem output_file_discipline (env : Env) :
    ((pthMain env).launched = false → (pthMain env).outFile = none) ∧
    ((pthMain env).exit ≠ 0 →
      (pthMain env).outFile = none ∨ Diag.writeFail ∈ (pthMain env).diags) ∧
    ((pthMain env).exit = 0 →
      ∃ m n d, Read_matrix env.fileA = some (m, n, d) ∧ 1 ≤ m ∧
        (pthMain env).outFile = some (completeFile m)) := by
  unfold pthMain
  split
  · exact ⟨fun _ => rfl, fun _ => Or.inl rfl, fun h0 => absurd h0 one_ne_zero⟩
  · split
    · exact ⟨fun _ => rfl, fun _ => Or.inl rfl, fun h0 => absurd h0 one_ne_zero⟩
    · split
      · exact ⟨fun _ => rfl, fun _ => Or.inl rfl, fun h0 => absurd h0 one_ne_zero⟩
      · rename_i m nA dA hA
        split
        · exact ⟨fun _ => rfl, fun _ => Or.inl rfl, fun h0 => absurd h0 one_ne_zero⟩
        · split
          · exact ⟨fun _ => rfl, fun _ => Or.inl rfl, fun h0 => absurd h0 one_ne_zero⟩
          · split
            · exact ⟨fun _ => rfl, fun _ => Or.inl rfl, fun h0 => absurd h0 one_ne_zero⟩
            · split
              · exact ⟨fun _ => rfl, fun _ => Or.inl rfl, fun h0 => absurd h0 one_ne_zero⟩
              · split
                · exact ⟨fun _ => rfl, fun _ => Or.inl rfl, fun h0 => absurd h0 one_ne_zero⟩
                · split
                  · refine ⟨fun h => Bool.noConfusion h, fun _ => Or.inr (by simp),
                      fun h0 => absurd h0 one_ne_zero⟩
                  · rename_i hw
                    have hm1 : 1 ≤ m := (Read_matrix_success hA).1
                    have hfile := Write_vector_success (by omega)
                      (not_ne_iff.mp hw)
                    exact ⟨fun h => Bool.noConfusion h, fun h => absurd rfl h,
                      fun _ => ⟨m, nA, dA, hA, hm1, hfile⟩⟩

/-- Run failing before the write step (wrong argument count), used to
witness the amended C4. -/
def envUsage : Env :=
  { argcIs5 := false
    threadCount := 2
    fileA := ⟨true, some 2, some 2, true, 4⟩
    fileX := ⟨true, some 2, some 1, true, 2⟩
    mallocY := true
    mallocHandles := true
    createFails := fun _ => false
    wenv := ⟨true, true, true, 2⟩ }

/-- Witness for the amended C4 on a run that fails before the write step. -/
theorem output_file_discipline_witness :
    (pthMain envUsage).exit ≠ 0 ∧
      ((pthMain envUsage).outFile = none ∨ Diag.writeFail ∈ (pthMain envUsage).diags) :=
  ⟨by decide, (output_file_discipline envUsage).2.1 (by decide)⟩

/-- Claim C7: once both inputs are loaded, a non-column `x` (`nx ≠ 1`) or a
dimension mismatch (`n ≠ mx`) makes the program exit 1 before any thread is
created, printing a diagnostic that carries the conflicting dimensions; and
exit code 0 implies the remaining validation, allocation and write steps
all succeeded. -/
theorem dimension_checks (env : Env) (m n mx nx : Int) (dA dX : Nat)
    (hA : Read_matrix env.fileA = some (m, n, dA))
    (hX : Read_matrix env.fileX = some (mx, nx, dX))
    (hargc : env.argcIs5 = true) (htc : 0 < env.threadCount) :
    (nx ≠ 1 →
      (pthMain env).exit = 1 ∧ (pthMain env).launched = false ∧
        (pthMain env).startedWorkers = [] ∧
        Diag.notColumn nx ∈ (pthMain env).diags) ∧
    (nx = 1 → n ≠ mx →
      (pthMain env).exit = 1 ∧ (pthMain env).launched = false ∧
        (pthMain env).startedWorkers = [] ∧
        Diag.dimMismatch m n mx ∈ (pthMain env).diags) ∧
    ((pthMain env).exit = 0 →
      nx = 1 ∧ n = mx ∧ env.mallocY = true ∧ env.mallocHandles = true ∧
        (Write_vector env.wenv m).1 = 0) := by
  have hred : pthMain env =
      (if nx ≠ 1 then ⟨1, none, false, [], [Diag.notColumn nx]⟩
       else if n ≠ mx then ⟨1, none, false, [], [Diag.dimMismatch m n mx]⟩
       else if ¬ env.mallocY then ⟨1, none, false, [], [Diag.allocY]⟩
       else if ¬ env.mallocHandles then ⟨1, none, false, [], [Diag.allocHandles]⟩
       else if (Write_vector env.wenv m).1 ≠ 0 then
         ⟨1, (Write_vector env.wenv m).2, true,
           (List.range env.threadCount.toNat).filter (fun t => ! env.createFails t),
           [Diag.writeFail]⟩
       else
         ⟨0, (Write_vector env.wenv m).2, true,
           (List.range env.threadCount.toNat).filter (fun t => ! env.createFails t),
           []⟩ : MainResult) := by
    unfold pthMain
    rw [hA, hX, if_neg (show ¬ ¬ (env.argcIs5 = true) by simp [hargc]),
      if_neg (show ¬ env.threadCount ≤ 0 by omega)]
  refine ⟨?_, ?_, ?_⟩
  · intro hnx
    rw [hred, if_pos hnx]
    exact ⟨rfl, rfl, rfl, by simp⟩
  · intro hnx hnm
    rw [hred, if_neg (by simp [hnx]), if_pos hnm]
    exact ⟨rfl, rfl, rfl, by simp⟩
  · intro h0
    rw [hred] at h0
    by_cases hnx : nx ≠ 1
    · rw [if_pos hnx] at h0; exact absurd h0 one_ne_zero
    rw [if_neg hnx] at h0
    by_cases hnm : n ≠ mx
    · rw [if_pos hnm] at h0; exact absurd h0 one_ne_zero
    rw [if_neg hnm] at h0
    by_cases hmy : ¬ env.mallocY
    · rw [if_pos hmy] at h0; exact absurd h0 one_ne_zero
    rw [if_neg hmy] at h0
    by_cases hmh : ¬ env.mallocHandles
    · rw [if_pos hmh] at h0; exact absurd h0 one_ne_zero
    rw [if_neg hmh] at h0
    by_cases hwv : (Write_vector env.wenv m).1 ≠ 0
    · rw [if_pos hwv] at h0; exact absurd h0 one_ne_zero
    rw [if_neg hwv] at h0
    exact ⟨not_ne_iff.mp hnx, not_ne_iff.mp hnm, not_not.mp hmy, not_not.mp hmh,
      not_ne_iff.mp hwv⟩

/-- Run with the spec §8 mismatch inputs: `A` is 3×4, `x` is 3×1. -/
def envMismatch : Env :=
  { argcIs5 := true
    threadCount := 4
    fileA := ⟨true, some 3, some 4, true, 12⟩
    fileX := ⟨true, some 3, some 1, true, 3⟩
    mallocY := true
    mallocHandles := true
    createFails := fun _ => false
    wenv := ⟨true, true, true, 3⟩ }

/-- Witness for C7 on the 3×4 versus 3×1 mismatch. -/
theorem dimension_checks_witness :
    Read_matrix envMismatch.fileA = some (3, 4, 12) ∧
    Read_matrix envMismatch.fileX = some (3, 1, 3) ∧
    envMismatch.argcIs5 = true ∧ 0 < envMismatch.threadCount ∧
    ((pthMain envMismatch).exit = 1 ∧ (pthMain envMismatch).launched = false ∧
      (pthMain envMismatch).startedWorkers = [] ∧
      Diag.dimMismatch 3 4 3 ∈ (pthMain envMismatch).diags) :=
  ⟨by decide, by decide, rfl, by decide,
    (dimension_checks envMismatch 3 4 3 1 12 3 (by decide) (by decide) rfl
      (by decide)).2.1 rfl (by decide)⟩

end PthMatVec
